import Mathlib

/-!
Shallow embedding of `Code/LunarModules/ImageProcessor.py`.

An in-memory image of shape (H, W, C) is modelled as a function
`Fin H → Fin W → Fin C → ℚ`.  The Python code works on numpy float arrays;
every property of interest is stated in terms of exact arithmetic on the
stored values (exact equality against `row/255`, comparisons against
thresholds), so exact rational arithmetic is the faithful value model.

Numpy arrays are passed by reference and some methods mutate their argument
in place.  For the methods whose aliasing behaviour matters, a `Call` record
additionally gives the contents of the caller's argument array after the
call (`arg`) next to the returned array (`ret`).
-/

/-- An (H, W, C) array of rational pixel values. -/
def Img (H W C : ℕ) : Type := Fin H → Fin W → Fin C → ℚ

/-- All values of an image as a flat list (the view `np.max(img)` takes of
the whole array). -/
def imgVals {H W C : ℕ} (img : Img H W C) : List ℚ :=
  (List.finRange H).flatMap fun i =>
    (List.finRange W).flatMap fun j =>
      (List.finRange C).map fun c => img i j c

/-- Maximum of a list of values, modelling `np.max` on a flat array.
Numpy raises on an empty array; the `[]` case below is a junk value, and
every theorem that inspects the maximum does so at some pixel, which forces
the array to be nonempty. -/
def npMax : List ℚ → ℚ
  | [] => 0
  | x :: xs => xs.foldl max x

/-- The values of one channel of an image (the view `img[::,::,c]` takes). -/
def channelVals {H W C : ℕ} (img : Img H W C) (c : Fin C) : List ℚ :=
  (List.finRange H).flatMap fun i => (List.finRange W).map fun j => img i j c

/-- Maximum value of one channel of an image: `img[::,::,c].max()`. -/
def channelMax {H W C : ℕ} (img : Img H W C) (c : Fin C) : ℚ :=
  npMax (channelVals img c)

/-- Model of `ImageProcessor.binarize` (ImageProcessor.py lines 34-54).
The scale is detected from `np.max(img) > 1`; in the chosen branch the two
masked assignments `img[img > t] = 255.` and then `img[img <= t] = 0.` run
sequentially on the array, which elementwise is the composition of the two
conditional updates below (the second assignment sees the value written by
the first). -/
def binarize {H W C : ℕ} (img : Img H W C) (threshold : ℚ) : Img H W C :=
  if npMax (imgVals img) > 1 then
    fun i j c =>
      let x1 := if img i j c > threshold then (255 : ℚ) else img i j c
      if x1 ≤ threshold then 0 else x1
  else
    fun i j c =>
      let x1 := if img i j c > threshold / 255 then (255 : ℚ) else img i j c
      if x1 ≤ threshold / 255 then 0 else x1

/-- Model of `ImageProcessor.rescale` (lines 56-69): multiply every value by
`1/255` when `np.max(img) > 1`, otherwise return the input unchanged. -/
def rescale {H W C : ℕ} (img : Img H W C) : Img H W C :=
  if npMax (imgVals img) > 1 then (fun i j c => img i j c * (1 / 255)) else img

/-- Stacking of three (H, W) planes into an (H, W, 3) array:
`np.dstack((r, g, b))`. -/
def dstack3 {H W : ℕ} (r g b : Fin H → Fin W → ℚ) : Img H W 3 :=
  fun i j c => if (c : ℕ) = 0 then r i j else if (c : ℕ) = 1 then g i j else b i j

/-- Model of `ImageProcessor.mask_max_pixel_normalize` (lines 71-97): each
channel is deep-copied, values strictly above that channel's own maximum
times the threshold are set to 1 in the copy, and the three copies are
stacked into a fresh array. -/
def mask_max_pixel_normalize {H W : ℕ} (img : Img H W 3) (threshold : ℚ) : Img H W 3 :=
  let max_R_value := channelMax img 0
  let max_G_value := channelMax img 1
  let max_B_value := channelMax img 2
  dstack3
    (fun i j => if img i j 0 > max_R_value * threshold then 1 else img i j 0)
    (fun i j => if img i j 1 > max_G_value * threshold then 1 else img i j 1)
    (fun i j => if img i j 2 > max_B_value * threshold then 1 else img i j 2)

/-- Index of the first occurrence of the maximum of `v`, modelling
`np.argmax` along the channel axis.  Numpy documents that with several
occurrences of the maximum the first index is returned, i.e. the least
index among the maximizers, which is how it is written here. -/
def npArgmax {C : ℕ} [NeZero C] (v : Fin C → ℚ) : Fin C :=
  (Finset.univ.filter fun c => ∀ c', v c' ≤ v c).min' (by
    haveI : Nonempty (Fin C) := ⟨⟨0, Nat.pos_of_ne_zero (NeZero.ne C)⟩⟩
    obtain ⟨c, hc⟩ := Finite.exists_max v
    exact ⟨c, Finset.mem_filter.mpr ⟨Finset.mem_univ c, hc⟩⟩)

/-- Model of `ImageProcessor.mask_argmax` (lines 99-125): starting from
`np.zeros_like`, channel `k` of the output is set to 1 exactly where the
argmax over the four input channels equals `k`, and the four planes are
stacked back together. -/
def mask_argmax {H W : ℕ} (pm : Img H W 4) : Img H W 4 :=
  fun i j c => if npArgmax (fun k => pm i j k) = c then 1 else 0

/-- One row of the class-map dataframe `class_df`: a class name and its
canonical RGB color. -/
structure ClassRow where
  name : String
  r : ℚ
  g : ℚ
  b : ℚ

/-- The (r, g, b) color triple of a class row. -/
def rowColor (row : ClassRow) : ℚ × ℚ × ℚ := (row.r, row.g, row.b)

/-- The default 4-class map built inside `one_hot_encode` (lines 140-143)
and `reverse_one_hot_encode` (lines 184-187); the two literals (int vs
float entries) denote the same rational values. -/
def defaultClassMap : List ClassRow :=
  [⟨"Sky", 255, 0, 0⟩, ⟨"Big Rocks", 0, 0, 255⟩,
   ⟨"Small Rocks", 0, 255, 0⟩, ⟨"Unlabeled", 0, 0, 0⟩]

/-- The boolean mask of line 158: the pixel's three channels exactly equal
`(row.r/255, row.g/255, row.b/255)`. -/
def matchesRow {H W : ℕ} (img : Img H W 3) (row : ClassRow) (i : Fin H) (j : Fin W) : Prop :=
  img i j 0 = row.r / 255 ∧ img i j 1 = row.g / 255 ∧ img i j 2 = row.b / 255

instance {H W : ℕ} (img : Img H W 3) (row : ClassRow) (i : Fin H) (j : Fin W) :
    Decidable (matchesRow img row i j) :=
  inferInstanceAs (Decidable (_ ∧ _ ∧ _))

/-- One loop iteration of `one_hot_encode` (lines 150-165), viewed at one
pixel of the channel written into `frame`.  `new_img[mask] = 2` writes 2
into all three channels of the matched pixels (the mask was materialized
before the write); then `new_img[new_img < 2] = 0` and
`new_img[new_img == 2] = 1` rewrite every value; finally channel 0 of the
result is copied into the int-dtype `frame`, and the float-to-int cast
truncates.  Every value reaching the cast is nonnegative (it is 0, 1, or a
value not below 2), where truncation agrees with the floor used here. -/
def oheChannel {H W : ℕ} (img : Img H W 3) (row : ClassRow) (i : Fin H) (j : Fin W) : ℚ :=
  let x0 : ℚ := if matchesRow img row i j then 2 else img i j 0
  let x1 : ℚ := if x0 < 2 then 0 else x0
  let x2 : ℚ := if x1 = 2 then 1 else x1
  ((⌊x2⌋ : ℤ) : ℚ)

/-- Model of `ImageProcessor.one_hot_encode` (lines 127-169): channel `c` of
the output frame is the class channel computed for row `c` of the class
map, rows taken in order. -/
def one_hot_encode {H W : ℕ} (img : Img H W 3) (cmap : List ClassRow) :
    Img H W cmap.length :=
  fun i j c => oheChannel img (cmap.get c) i j

/-- Model of `ImageProcessor.reverse_one_hot_encode` (lines 171-229), with
the class map passed first so that the input's channel count can be tied to
it.  The input is first binarized with the default threshold 128 (line 189);
then for each class row the binarized class channel is projected onto the
R/G/B planes whose color component is positive (zeros otherwise), and each
output plane is the pointwise `np.max` over the per-class stacks. -/
def reverse_one_hot_encode {H W : ℕ} (cmap : List ClassRow) (img : Img H W cmap.length) :
    Img H W 3 :=
  let b := binarize img 128
  fun i j p =>
    npMax ((List.finRange cmap.length).map fun k =>
      let row := cmap.get k
      let comp := if (p : ℕ) = 0 then row.r else if (p : ℕ) = 1 then row.g else row.b
      if comp > 0 then b i j k else 0)

/-- Model of `ImageProcessor.preprocessor_masks` (lines 291-309):
`mask_max_pixel_normalize` (with its default threshold 0.8), then
`one_hot_encode`, then `rescale`.  The `b_threshold` parameter is accepted
and never read, as in the source. -/
def preprocessor_masks {H W : ℕ} (image : Img H W 3) (b_threshold : ℚ)
    (class_map : List ClassRow) : Img H W class_map.length :=
  let image1 := mask_max_pixel_normalize image (8 / 10)
  let image2 := one_hot_encode image1 class_map
  rescale image2

/-- Result of calling a method on a numpy array passed by reference:
`arg` is the contents of the caller's argument array after the call (the
call may have mutated it in place), `ret` is the returned array. -/
structure Call (α β : Type) where
  arg : α
  ret : β

/-- Full effect of a `mask_max_pixel_normalize` call: the method only reads
its argument (all writes go to `copy.deepcopy` copies of the channels, and
`np.dstack` allocates the result), so the caller's array is unchanged and a
fresh array is returned. -/
def mask_max_pixel_normalize_call {H W : ℕ} (img : Img H W 3) (threshold : ℚ) :
    Call (Img H W 3) (Img H W 3) :=
  ⟨img, mask_max_pixel_normalize img threshold⟩

/-- Full effect of a `reverse_one_hot_encode` call: line 189 runs
`self.binarize(img)` whose masked assignments write into the caller's array
in place (with the default threshold 128), so after the call the caller's
array holds the binarized values; the decode then reads that same array,
not a private copy. -/
def reverse_one_hot_encode_call {H W : ℕ} (cmap : List ClassRow)
    (img : Img H W cmap.length) : Call (Img H W cmap.length) (Img H W 3) :=
  ⟨binarize img 128, reverse_one_hot_encode cmap img⟩

/-- A pixel of an already-[0,1]-scaled mask carrying exactly one canonical
color of the default 4-class map. -/
def isCanonicalPixel {H W : ℕ} (m : Img H W 3) (i : Fin H) (j : Fin W) : Prop :=
  (m i j 0 = 1 ∧ m i j 1 = 0 ∧ m i j 2 = 0) ∨
  (m i j 0 = 0 ∧ m i j 1 = 0 ∧ m i j 2 = 1) ∨
  (m i j 0 = 0 ∧ m i j 1 = 1 ∧ m i j 2 = 0) ∨
  (m i j 0 = 0 ∧ m i j 1 = 0 ∧ m i j 2 = 0)

instance {H W : ℕ} (m : Img H W 3) (i : Fin H) (j : Fin W) :
    Decidable (isCanonicalPixel m i j) :=
  inferInstanceAs (Decidable ((_ ∧ _ ∧ _) ∨ (_ ∧ _ ∧ _) ∨ (_ ∧ _ ∧ _) ∨ (_ ∧ _ ∧ _)))

/-- A 1x1 image with every value 200 (an 8-bit-scale image). -/
def exImg200 : Img 1 1 3 := fun _ _ _ => 200

/-- A 1x1 mask whose single pixel is the canonical Sky color (1, 0, 0). -/
def exSky : Img 1 1 3 := fun _ _ c => if (c : ℕ) = 0 then 1 else 0

/-- A 1x1 image whose single pixel is (2, 0, 0): it matches no row of the
default class map and its first channel is exactly 2. -/
def exMask2 : Img 1 1 3 := fun _ _ c => if (c : ℕ) = 0 then 2 else 0

/-- A 1x1 image whose single pixel is (3, 0, 0): it matches no row of the
default class map and its first channel exceeds 2. -/
def exMask3 : Img 1 1 3 := fun _ _ c => if (c : ℕ) = 0 then 3 else 0

/-- A 1x1 image whose single pixel is (1/2, 0, 0): an in-range pixel that
matches no row of the default class map. -/
def exMaskHalf : Img 1 1 3 := fun _ _ c => if (c : ℕ) = 0 then 1 / 2 else 0

/-- A 2x2 mask carrying all four canonical colors of the default class map:
Sky, Big Rocks, Small Rocks and Unlabeled. -/
def exQuad : Img 2 2 3 := fun i j c =>
  if (i : ℕ) = 0 ∧ (j : ℕ) = 0 then (if (c : ℕ) = 0 then 1 else 0)
  else if (i : ℕ) = 0 then (if (c : ℕ) = 2 then 1 else 0)
  else if (j : ℕ) = 0 then (if (c : ℕ) = 1 then 1 else 0)
  else 0

/-! ## Helper lemmas -/

theorem foldl_max_le {l : List ℚ} : ∀ {a c : ℚ}, a ≤ c → (∀ x ∈ l, x ≤ c) →
    l.foldl max a ≤ c := by
  induction l with
  | nil => intro a c ha _h; simpa using ha
  | cons y ys ih =>
      intro a c ha h
      simp only [List.foldl_cons]
      exact ih (max_le ha (h y (List.mem_cons_self y ys)))
        fun x hx => h x (List.mem_cons_of_mem y hx)

theorem npMax_le {l : List ℚ} {c : ℚ} (h0 : 0 ≤ c) (h : ∀ x ∈ l, x ≤ c) :
    npMax l ≤ c := by
  cases l with
  | nil => simpa [npMax] using h0
  | cons x xs =>
      exact foldl_max_le (h x (List.mem_cons_self x xs))
        fun y hy => h y (List.mem_cons_of_mem x hy)

theorem mem_imgVals {H W C : ℕ} {img : Img H W C} {x : ℚ} (hx : x ∈ imgVals img) :
    ∃ i j c, img i j c = x := by
  simp only [imgVals, List.mem_flatMap, List.mem_map, List.mem_finRange, true_and] at hx
  obtain ⟨i, j, c, rfl⟩ := hx
  exact ⟨i, j, c, rfl⟩

theorem binarize_step_zero_or_255 (x t : ℚ) :
    (if (if x > t then (255 : ℚ) else x) ≤ t then (0 : ℚ)
      else (if x > t then (255 : ℚ) else x)) = 0 ∨
    (if (if x > t then (255 : ℚ) else x) ≤ t then (0 : ℚ)
      else (if x > t then (255 : ℚ) else x)) = 255 := by
  by_cases hgt : x > t
  · by_cases h2 : (255 : ℚ) ≤ t
    · simp [hgt, h2]
    · simp [hgt, h2]
  · simp [hgt, le_of_not_lt hgt]

theorem binarize_zero_or_255 {H W C : ℕ} (img : Img H W C) (t : ℚ)
    (i : Fin H) (j : Fin W) (c : Fin C) :
    binarize img t i j c = 0 ∨ binarize img t i j c = 255 := by
  unfold binarize
  split
  · exact binarize_step_zero_or_255 (img i j c) t
  · exact binarize_step_zero_or_255 (img i j c) (t / 255)

/-! ## Claim theorems -/

/-- C5: for every input image, every element of the array returned by
`binarize` is 0 or 255; the scale is chosen by whether `np.max(img) > 1`
(the raw threshold in the [0,255] branch, `threshold/255` otherwise,
including a maximum of exactly 1), elements strictly greater than the
compared threshold becoming 255 and the rest 0.  The threshold is a pixel
threshold, i.e. below the "on" value 255 (the source's default is 128). -/
theorem binarize_spec {H W C : ℕ} (img : Img H W C) (t : ℚ) (ht : t < 255)
    (i : Fin H) (j : Fin W) (c : Fin C) :
    (binarize img t i j c = 0 ∨ binarize img t i j c = 255) ∧
    binarize img t i j c =
      (if npMax (imgVals img) > 1
        then (if img i j c > t then 255 else 0)
        else (if img i j c > t / 255 then 255 else 0)) := by
  refine ⟨binarize_zero_or_255 img t i j c, ?_⟩
  unfold binarize
  split
  · by_cases hgt : img i j c > t
    · have h2 : ¬ (255 : ℚ) ≤ t := not_le.2 ht
      simp [hgt, h2]
    · simp [hgt, le_of_not_lt hgt]
  · by_cases hgt : img i j c > t / 255
    · have h2 : ¬ (255 : ℚ) ≤ t / 255 := not_le.2 (by linarith)
      simp [hgt, h2]
    · simp [hgt, le_of_not_lt hgt]

/-- Witness for C5 at a concrete 8-bit-scale image and the default
threshold 128. -/
theorem binarize_spec_witness :
    binarize exImg200 128 0 0 0 = 0 ∨ binarize exImg200 128 0 0 0 = 255 :=
  (binarize_spec exImg200 128 (by norm_num) 0 0 0).1

/-- C6: `rescale` multiplies every element by 1/255 when `np.max(img) > 1`
and returns the input unchanged otherwise; hence on every image whose
maximum is at most 1 it is idempotent. -/
theorem rescale_spec {H W C : ℕ} (img : Img H W C) :
    (npMax (imgVals img) > 1 → ∀ i j c, rescale img i j c = img i j c * (1 / 255)) ∧
    (¬ npMax (imgVals img) > 1 → rescale img = img) ∧
    (npMax (imgVals img) ≤ 1 → rescale (rescale img) = rescale img) := by
  refine ⟨?_, ?_, ?_⟩
  · intro h i j c
    simp [rescale, h]
  · intro h
    simp [rescale, h]
  · intro h
    have h1 : ¬ npMax (imgVals img) > 1 := not_lt.2 h
    have e : rescale img = img := by simp [rescale, h1]
    rw [e]
    exact e

/-- Witness for C6 at a concrete image of maximum 200: the 8-bit branch
divides by 255. -/
theorem rescale_spec_witness : rescale exImg200 0 0 0 = 200 * (1 / 255) :=
  (rescale_spec exImg200).1 (by decide) 0 0 0

/-- C8: `preprocessor_masks` is exactly `mask_max_pixel_normalize` (at its
default threshold 0.8), then `one_hot_encode`, then `rescale`, and the
`b_threshold` argument has no effect on the result. -/
theorem preprocessor_masks_spec {H W : ℕ} (image : Img H W 3)
    (b_threshold b_threshold' : ℚ) (class_map : List ClassRow) :
    preprocessor_masks image b_threshold class_map
      = rescale (one_hot_encode (mask_max_pixel_normalize image (8 / 10)) class_map) ∧
    preprocessor_masks image b_threshold class_map
      = preprocessor_masks image b_threshold' class_map :=
  ⟨rfl, rfl⟩

theorem npArgmax_isMax {C : ℕ} [NeZero C] (v : Fin C → ℚ) (c : Fin C) :
    v c ≤ v (npArgmax v) := by
  have h : npArgmax v ∈ Finset.univ.filter fun d => ∀ c', v c' ≤ v d := by
    unfold npArgmax
    exact Finset.min'_mem _ _
  exact (Finset.mem_filter.mp h).2 c

theorem npArgmax_min {C : ℕ} [NeZero C] (v : Fin C → ℚ) (c : Fin C)
    (hc : ∀ c', v c' ≤ v c) : npArgmax v ≤ c := by
  unfold npArgmax
  exact Finset.min'_le _ c (Finset.mem_filter.mpr ⟨Finset.mem_univ c, hc⟩)

/-- C7: at every pixel, `mask_argmax` puts a single 1 (all other channels
are 0), and the 1 sits at the smallest channel index attaining the pixel's
maximum score, so ties resolve to the lowest index. -/
theorem mask_argmax_spec {H W : ℕ} (pm : Img H W 4) (i : Fin H) (j : Fin W) :
    ∃ a : Fin 4, mask_argmax pm i j a = 1 ∧
      (∀ c, c ≠ a → mask_argmax pm i j c = 0) ∧
      (∀ c, pm i j c ≤ pm i j a) ∧
      (∀ c, pm i j c = pm i j a → a ≤ c) := by
  refine ⟨npArgmax (fun k => pm i j k), ?_, ?_, ?_, ?_⟩
  · simp [mask_argmax]
  · intro c hca
    have hne : npArgmax (fun k => pm i j k) ≠ c := Ne.symm hca
    simp [mask_argmax, hne]
  · exact fun c => npArgmax_isMax (fun k => pm i j k) c
  · intro c hc
    refine npArgmax_min (fun k => pm i j k) c fun c' => ?_
    exact le_of_le_of_eq (npArgmax_isMax (fun k => pm i j k) c') hc.symm

/-- The value a single `one_hot_encode` loop iteration stores at one pixel:
1 on an exact color match; otherwise the pixel's first channel pushed
through the `< 2` zeroing, the `== 2` snap to 1, and the int cast. -/
theorem oheChannel_eq {H W : ℕ} (img : Img H W 3) (row : ClassRow) (i : Fin H) (j : Fin W) :
    oheChannel img row i j =
      if matchesRow img row i j then 1
      else if img i j 0 < 2 then 0
      else if img i j 0 = 2 then 1
      else ((⌊img i j 0⌋ : ℤ) : ℚ) := by
  by_cases hm : matchesRow img row i j
  · simp only [oheChannel, if_pos hm]
    norm_num
  · simp only [oheChannel, if_neg hm]
    by_cases h2 : img i j 0 < 2
    · simp only [if_pos h2]
      norm_num
    · simp only [if_neg h2]
      by_cases he : img i j 0 = 2
      · simp only [if_pos he]
        norm_num
      · simp only [if_neg he]

/-- C9: `mask_max_pixel_normalize` does not modify the caller's array, and
in the fresh array it returns, each channel's pixels strictly above that
channel's own maximum times the threshold are exactly 1 while every other
pixel keeps its input value. -/
theorem mask_max_pixel_normalize_spec {H W : ℕ} (img : Img H W 3) (t : ℚ) :
    (mask_max_pixel_normalize_call img t).arg = img ∧
    ∀ (i : Fin H) (j : Fin W) (c : Fin 3),
      (mask_max_pixel_normalize_call img t).ret i j c
        = if img i j c > channelMax img c * t then 1 else img i j c := by
  refine ⟨rfl, ?_⟩
  intro i j c
  fin_cases c <;>
    simp [mask_max_pixel_normalize_call, mask_max_pixel_normalize, dstack3]

/-- C10: `reverse_one_hot_encode` mutates its argument in place: after the
call the caller's array holds `binarize img 128` (the decode reads that
array, not a private copy), so every element of the caller's array has been
destructively snapped to 0 or 255. -/
theorem reverse_one_hot_encode_mutates_input {H W : ℕ} (cmap : List ClassRow)
    (img : Img H W cmap.length) :
    (reverse_one_hot_encode_call cmap img).arg = binarize img 128 ∧
    ∀ (i : Fin H) (j : Fin W) (c : Fin cmap.length),
      (reverse_one_hot_encode_call cmap img).arg i j c = 0 ∨
      (reverse_one_hot_encode_call cmap img).arg i j c = 255 :=
  ⟨rfl, fun i j c => binarize_zero_or_255 img 128 i j c⟩

/-- C2: for a class map whose rows carry pairwise-distinct genuine RGB
colors (components in [0,255]) and a mask whose every pixel exactly equals
`(row.r/255, row.g/255, row.b/255)` for some row, every pixel of the
`one_hot_encode` output has channel-sum exactly 1. -/
theorem one_hot_encode_channel_sum_one {H W : ℕ} (cmap : List ClassRow) (img : Img H W 3)
    (hdist : ∀ k l : Fin cmap.length, k ≠ l → rowColor (cmap.get k) ≠ rowColor (cmap.get l))
    (hrange : ∀ row ∈ cmap, 0 ≤ row.r ∧ row.r ≤ 255 ∧ 0 ≤ row.g ∧ row.g ≤ 255 ∧
      0 ≤ row.b ∧ row.b ≤ 255)
    (hcov : ∀ i j, ∃ k : Fin cmap.length, matchesRow img (cmap.get k) i j)
    (i : Fin H) (j : Fin W) :
    ∑ c : Fin cmap.length, one_hot_encode img cmap i j c = 1 := by
  obtain ⟨k, hk⟩ := hcov i j
  have hlt : img i j 0 < 2 := by
    obtain ⟨hr0, hr1, _⟩ := hrange (cmap.get k) (List.get_mem cmap k.1 k.2)
    rw [hk.1]
    linarith
  have hch : ∀ c : Fin cmap.length,
      one_hot_encode img cmap i j c = if c = k then 1 else 0 := by
    intro c
    by_cases hck : c = k
    · subst hck
      show oheChannel img (cmap.get c) i j = if c = c then 1 else 0
      rw [oheChannel_eq, if_pos hk, if_pos rfl]
    · have hnm : ¬ matchesRow img (cmap.get c) i j := by
        intro hm
        apply hdist c k hck
        obtain ⟨h0, h1, h2⟩ := hm
        obtain ⟨h0', h1', h2'⟩ := hk
        have e0 : (cmap.get c).r = (cmap.get k).r := by
          have e := h0.symm.trans h0'
          linarith
        have e1 : (cmap.get c).g = (cmap.get k).g := by
          have e := h1.symm.trans h1'
          linarith
        have e2 : (cmap.get c).b = (cmap.get k).b := by
          have e := h2.symm.trans h2'
          linarith
        simp only [rowColor, Prod.mk.injEq]
        exact ⟨e0, e1, e2⟩
      simp only [one_hot_encode, oheChannel_eq, if_neg hnm, if_pos hlt, if_neg hck]
  rw [Finset.sum_congr rfl fun c _ => hch c]
  simp

/-- Witness for C2: a 1x1 all-Sky mask against the default class map. -/
theorem one_hot_encode_channel_sum_one_witness :
    ∑ c : Fin defaultClassMap.length, one_hot_encode exSky defaultClassMap 0 0 c = 1 :=
  one_hot_encode_channel_sum_one defaultClassMap exSky (by decide) (by decide)
    (fun i j => ⟨⟨0, by decide⟩, by
      show matchesRow exSky ⟨"Sky", 255, 0, 0⟩ i j
      refine ⟨?_, ?_, ?_⟩ <;> norm_num [exSky, matchesRow]⟩) 0 0

/-- C3 counterexample: the pixel (2, 0, 0) matches no row of the default
class map, yet its output channel vector is not all-zero (channel 0 is 1:
the unmatched first-channel value 2 is caught by the `new_img == 2` snap). -/
theorem one_hot_encode_unmatched_counterexample :
    (∀ row ∈ defaultClassMap, ¬ matchesRow exMask2 row 0 0) ∧
    one_hot_encode exMask2 defaultClassMap 0 0 ⟨0, by decide⟩ ≠ 0 ∧
    one_hot_encode exMask2 defaultClassMap 0 0 ⟨0, by decide⟩ = 1 := by
  have hnm : ∀ row ∈ defaultClassMap, ¬ matchesRow exMask2 row 0 0 := by
    intro row hrow
    have hr : row = ⟨"Sky", 255, 0, 0⟩ ∨ row = ⟨"Big Rocks", 0, 0, 255⟩ ∨
        row = ⟨"Small Rocks", 0, 255, 0⟩ ∨ row = ⟨"Unlabeled", 0, 0, 0⟩ := by
      simpa [defaultClassMap] using hrow
    rcases hr with rfl | rfl | rfl | rfl <;> norm_num [matchesRow, exMask2]
  have hval : one_hot_encode exMask2 defaultClassMap 0 0 ⟨0, by decide⟩ = 1 := by
    have h0 : ¬ matchesRow exMask2 (defaultClassMap.get ⟨0, by decide⟩) 0 0 :=
      hnm _ (List.get_mem _ _ _)
    show oheChannel exMask2 (defaultClassMap.get ⟨0, by decide⟩) 0 0 = 1
    rw [oheChannel_eq, if_neg h0]
    norm_num [exMask2]
  refine ⟨hnm, ?_, hval⟩
  rw [hval]
  norm_num

/-- C3 amended: provided the pixel's first-channel value is below 2 (true of
any [0,1]-scaled mask), a pixel matching no row of the class map yields an
all-zero channel vector, with no error and no sentinel value. -/
theorem one_hot_encode_unmatched_zero {H W : ℕ} (img : Img H W 3) (cmap : List ClassRow)
    (i : Fin H) (j : Fin W) (hR : img i j 0 < 2)
    (hun : ∀ row ∈ cmap, ¬ matchesRow img row i j) :
    ∀ c : Fin cmap.length, one_hot_encode img cmap i j c = 0 := by
  intro c
  have hnm := hun (cmap.get c) (List.get_mem cmap c.1 c.2)
  simp only [one_hot_encode, oheChannel_eq, if_neg hnm, if_pos hR]

/-- Witness for the amended C3: the unmatched in-range pixel (1/2, 0, 0)
encodes to all-zero channels. -/
theorem one_hot_encode_unmatched_zero_witness :
    one_hot_encode exMaskHalf defaultClassMap 0 0 ⟨0, by decide⟩ = 0 :=
  one_hot_encode_unmatched_zero exMaskHalf defaultClassMap 0 0
    (by norm_num [exMaskHalf])
    (by
      intro row hrow
      have hr : row = ⟨"Sky", 255, 0, 0⟩ ∨ row = ⟨"Big Rocks", 0, 0, 255⟩ ∨
          row = ⟨"Small Rocks", 0, 255, 0⟩ ∨ row = ⟨"Unlabeled", 0, 0, 0⟩ := by
        simpa [defaultClassMap] using hrow
      rcases hr with rfl | rfl | rfl | rfl <;> norm_num [matchesRow, exMaskHalf])
    ⟨0, by decide⟩

/-- C4 counterexample: on the input pixel (3, 0, 0), which matches no row of
the default class map, the encoder emits the value 3 — not 0 or 1 — into
every channel; the OneHotMask value invariant fails for this input. -/
theorem one_hot_encode_not_binary_counterexample :
    ¬ (one_hot_encode exMask3 defaultClassMap 0 0 ⟨0, by decide⟩ = 0 ∨
       one_hot_encode exMask3 defaultClassMap 0 0 ⟨0, by decide⟩ = 1) ∧
    one_hot_encode exMask3 defaultClassMap 0 0 ⟨0, by decide⟩ = 3 := by
  have h0 : ¬ matchesRow exMask3 (defaultClassMap.get ⟨0, by decide⟩) 0 0 := by
    show ¬ matchesRow exMask3 ⟨"Sky", 255, 0, 0⟩ 0 0
    norm_num [matchesRow, exMask3]
  have hval : one_hot_encode exMask3 defaultClassMap 0 0 ⟨0, by decide⟩ = 3 := by
    show oheChannel exMask3 (defaultClassMap.get ⟨0, by decide⟩) 0 0 = 3
    rw [oheChannel_eq, if_neg h0]
    norm_num [exMask3]
  refine ⟨?_, hval⟩
  rw [hval]
  norm_num

/-- C4 amended: provided every pixel's first-channel value is at most 2
(true in particular of any [0,1]-scaled input), every element of the array
returned by `one_hot_encode` is 0 or 1, for every class map. -/
theorem one_hot_encode_binary_of_le_two {H W : ℕ} (img : Img H W 3) (cmap : List ClassRow)
    (h2 : ∀ i j, img i j 0 ≤ 2) :
    ∀ (i : Fin H) (j : Fin W) (c : Fin cmap.length),
      one_hot_encode img cmap i j c = 0 ∨ one_hot_encode img cmap i j c = 1 := by
  intro i j c
  simp only [one_hot_encode, oheChannel_eq]
  split_ifs with hm hlt heq
  · right; rfl
  · left; rfl
  · right; rfl
  · exact absurd (lt_of_le_of_ne (h2 i j) heq) hlt

/-- Witness for the amended C4 at the 1x1 all-Sky mask. -/
theorem one_hot_encode_binary_witness :
    one_hot_encode exSky defaultClassMap 0 0 ⟨0, by decide⟩ = 0 ∨
    one_hot_encode exSky defaultClassMap 0 0 ⟨0, by decide⟩ = 1 :=
  one_hot_encode_binary_of_le_two exSky defaultClassMap
    (fun i j => by norm_num [exSky]) 0 0 ⟨0, by decide⟩

theorem finRange_defaultLength :
    List.finRange defaultClassMap.length
      = [⟨0, by decide⟩, ⟨1, by decide⟩, ⟨2, by decide⟩, ⟨3, by decide⟩] := by
  decide

theorem npMax_four (a b c d : ℚ) : npMax [a, b, c, d] = max (max (max a b) c) d := rfl

theorem defaultClassMap_get_zero :
    defaultClassMap.get ⟨0, by decide⟩ = ⟨"Sky", 255, 0, 0⟩ := rfl

theorem defaultClassMap_get_one :
    defaultClassMap.get ⟨1, by decide⟩ = ⟨"Big Rocks", 0, 0, 255⟩ := rfl

theorem defaultClassMap_get_two :
    defaultClassMap.get ⟨2, by decide⟩ = ⟨"Small Rocks", 0, 255, 0⟩ := rfl

theorem defaultClassMap_get_three :
    defaultClassMap.get ⟨3, by decide⟩ = ⟨"Unlabeled", 0, 0, 0⟩ := rfl

/-- On a canonical-color pixel, each channel written by `one_hot_encode`
with the default class map is 1 on the matching row and 0 elsewhere. -/
theorem ohe_canonical {H W : ℕ} (m : Img H W 3) (i : Fin H) (j : Fin W)
    (h : isCanonicalPixel m i j) (c : Fin defaultClassMap.length) :
    one_hot_encode m defaultClassMap i j c
      = if matchesRow m (defaultClassMap.get c) i j then 1 else 0 := by
  show oheChannel m (defaultClassMap.get c) i j = _
  rw [oheChannel_eq]
  by_cases hm : matchesRow m (defaultClassMap.get c) i j
  · rw [if_pos hm, if_pos hm]
  · rw [if_neg hm, if_neg hm]
    have hlt : m i j 0 < 2 := by
      rcases h with ⟨ha, _, _⟩ | ⟨ha, _, _⟩ | ⟨ha, _, _⟩ | ⟨ha, _, _⟩ <;> rw [ha] <;> norm_num
    rw [if_pos hlt]

/-- C1: for a mask whose every pixel carries exactly one canonical color of
the default 4-class map in [0,1] scale — Sky (1,0,0), Big Rocks (0,0,1),
Small Rocks (0,1,0), Unlabeled (0,0,0) — decoding the encoding returns at
every pixel the original color multiplied by 255, i.e. the canonical color
up to the 0-255 vs 0-1 scale difference. -/
theorem round_trip_default_classmap {H W : ℕ} (m : Img H W 3)
    (hcanon : ∀ i j, isCanonicalPixel m i j) :
    ∀ (i : Fin H) (j : Fin W) (p : Fin 3),
      reverse_one_hot_encode defaultClassMap (one_hot_encode m defaultClassMap) i j p
        = 255 * m i j p := by
  intro i j p
  have h01 : ∀ (a : Fin H) (b : Fin W) (c : Fin defaultClassMap.length),
      one_hot_encode m defaultClassMap a b c = 0 ∨
      one_hot_encode m defaultClassMap a b c = 1 := by
    intro a b c
    rw [ohe_canonical m a b (hcanon a b) c]
    by_cases hm : matchesRow m (defaultClassMap.get c) a b
    · right
      rw [if_pos hm]
    · left
      rw [if_neg hm]
  have hmaxle : ¬ npMax (imgVals (one_hot_encode m defaultClassMap)) > 1 := by
    refine not_lt.2 (npMax_le (by norm_num) ?_)
    intro x hx
    obtain ⟨a, b, c, rfl⟩ := mem_imgVals hx
    rcases h01 a b c with h | h <;> rw [h] <;> norm_num
  have hbin : ∀ c : Fin defaultClassMap.length,
      binarize (one_hot_encode m defaultClassMap) 128 i j c
        = if matchesRow m (defaultClassMap.get c) i j then 255 else 0 := by
    intro c
    unfold binarize
    rw [if_neg hmaxle]
    show (if (if one_hot_encode m defaultClassMap i j c > 128 / 255 then (255 : ℚ)
            else one_hot_encode m defaultClassMap i j c) ≤ 128 / 255 then (0 : ℚ)
          else (if one_hot_encode m defaultClassMap i j c > 128 / 255 then (255 : ℚ)
            else one_hot_encode m defaultClassMap i j c))
        = if matchesRow m (defaultClassMap.get c) i j then 255 else 0
    rw [ohe_canonical m i j (hcanon i j) c]
    by_cases hm : matchesRow m (defaultClassMap.get c) i j
    · rw [if_pos hm, if_pos hm]
      norm_num
    · rw [if_neg hm, if_neg hm]
      norm_num
  have hp : p = 0 ∨ p = 1 ∨ p = 2 := by
    rcases p with ⟨pv, hpv⟩
    interval_cases pv
    · exact Or.inl rfl
    · exact Or.inr (Or.inl rfl)
    · exact Or.inr (Or.inr rfl)
  rcases hcanon i j with ⟨h0, h1, h2⟩ | ⟨h0, h1, h2⟩ | ⟨h0, h1, h2⟩ | ⟨h0, h1, h2⟩
  · have hm0 : matchesRow m (⟨"Sky", 255, 0, 0⟩ : ClassRow) i j :=
      ⟨by rw [h0]; norm_num, by rw [h1]; norm_num, by rw [h2]; norm_num⟩
    have hm1 : ¬ matchesRow m (⟨"Big Rocks", 0, 0, 255⟩ : ClassRow) i j := by
      intro hm
      have ha := hm.1
      rw [h0] at ha
      norm_num at ha
    have hm2 : ¬ matchesRow m (⟨"Small Rocks", 0, 255, 0⟩ : ClassRow) i j := by
      intro hm
      have ha := hm.1
      rw [h0] at ha
      norm_num at ha
    have hm3 : ¬ matchesRow m (⟨"Unlabeled", 0, 0, 0⟩ : ClassRow) i j := by
      intro hm
      have ha := hm.1
      rw [h0] at ha
      norm_num at ha
    have hb0 : binarize (one_hot_encode m defaultClassMap) 128 i j ⟨0, by decide⟩ = 255 := by
      rw [hbin ⟨0, by decide⟩, defaultClassMap_get_zero, if_pos hm0]
    have hb1 : binarize (one_hot_encode m defaultClassMap) 128 i j ⟨1, by decide⟩ = 0 := by
      rw [hbin ⟨1, by decide⟩, defaultClassMap_get_one, if_neg hm1]
    have hb2 : binarize (one_hot_encode m defaultClassMap) 128 i j ⟨2, by decide⟩ = 0 := by
      rw [hbin ⟨2, by decide⟩, defaultClassMap_get_two, if_neg hm2]
    have hb3 : binarize (one_hot_encode m defaultClassMap) 128 i j ⟨3, by decide⟩ = 0 := by
      rw [hbin ⟨3, by decide⟩, defaultClassMap_get_three, if_neg hm3]
    rcases hp with rfl | rfl | rfl
    · rw [h0]
      simp only [reverse_one_hot_encode, finRange_defaultLength, List.map_cons, List.map_nil,
        defaultClassMap_get_zero, defaultClassMap_get_one, defaultClassMap_get_two,
        defaultClassMap_get_three, hb0, hb1, hb2, hb3]
      norm_num [npMax_four, max_def]
    · rw [h1]
      simp only [reverse_one_hot_encode, finRange_defaultLength, List.map_cons, List.map_nil,
        defaultClassMap_get_zero, defaultClassMap_get_one, defaultClassMap_get_two,
        defaultClassMap_get_three, hb0, hb1, hb2, hb3]
      norm_num [npMax_four, max_def]
    · rw [h2]
      simp only [reverse_one_hot_encode, finRange_defaultLength, List.map_cons, List.map_nil,
        defaultClassMap_get_zero, defaultClassMap_get_one, defaultClassMap_get_two,
        defaultClassMap_get_three, hb0, hb1, hb2, hb3]
      norm_num [npMax_four, max_def]
  · have hm0 : ¬ matchesRow m (⟨"Sky", 255, 0, 0⟩ : ClassRow) i j := by
      intro hm
      have ha := hm.1
      rw [h0] at ha
      norm_num at ha
    have hm1 : matchesRow m (⟨"Big Rocks", 0, 0, 255⟩ : ClassRow) i j :=
      ⟨by rw [h0]; norm_num, by rw [h1]; norm_num, by rw [h2]; norm_num⟩
    have hm2 : ¬ matchesRow m (⟨"Small Rocks", 0, 255, 0⟩ : ClassRow) i j := by
      intro hm
      have hb := hm.2.1
      rw [h1] at hb
      norm_num at hb
    have hm3 : ¬ matchesRow m (⟨"Unlabeled", 0, 0, 0⟩ : ClassRow) i j := by
      intro hm
      have hc := hm.2.2
      rw [h2] at hc
      norm_num at hc
    have hb0 : binarize (one_hot_encode m defaultClassMap) 128 i j ⟨0, by decide⟩ = 0 := by
      rw [hbin ⟨0, by decide⟩, defaultClassMap_get_zero, if_neg hm0]
    have hb1 : binarize (one_hot_encode m defaultClassMap) 128 i j ⟨1, by decide⟩ = 255 := by
      rw [hbin ⟨1, by decide⟩, defaultClassMap_get_one, if_pos hm1]
    have hb2 : binarize (one_hot_encode m defaultClassMap) 128 i j ⟨2, by decide⟩ = 0 := by
      rw [hbin ⟨2, by decide⟩, defaultClassMap_get_two, if_neg hm2]
    have hb3 : binarize (one_hot_encode m defaultClassMap) 128 i j ⟨3, by decide⟩ = 0 := by
      rw [hbin ⟨3, by decide⟩, defaultClassMap_get_three, if_neg hm3]
    rcases hp with rfl | rfl | rfl
    · rw [h0]
      simp only [reverse_one_hot_encode, finRange_defaultLength, List.map_cons, List.map_nil,
        defaultClassMap_get_zero, defaultClassMap_get_one, defaultClassMap_get_two,
        defaultClassMap_get_three, hb0, hb1, hb2, hb3]
      norm_num [npMax_four, max_def]
    · rw [h1]
      simp only [reverse_one_hot_encode, finRange_defaultLength, List.map_cons, List.map_nil,
        defaultClassMap_get_zero, defaultClassMap_get_one, defaultClassMap_get_two,
        defaultClassMap_get_three, hb0, hb1, hb2, hb3]
      norm_num [npMax_four, max_def]
    · rw [h2]
      simp only [reverse_one_hot_encode, finRange_defaultLength, List.map_cons, List.map_nil,
        defaultClassMap_get_zero, defaultClassMap_get_one, defaultClassMap_get_two,
        defaultClassMap_get_three, hb0, hb1, hb2, hb3]
      norm_num [npMax_four, max_def]
  · have hm0 : ¬ matchesRow m (⟨"Sky", 255, 0, 0⟩ : ClassRow) i j := by
      intro hm
      have ha := hm.1
      rw [h0] at ha
      norm_num at ha
    have hm1 : ¬ matchesRow m (⟨"Big Rocks", 0, 0, 255⟩ : ClassRow) i j := by
      intro hm
      have hc := hm.2.2
      rw [h2] at hc
      norm_num at hc
    have hm2 : matchesRow m (⟨"Small Rocks", 0, 255, 0⟩ : ClassRow) i j :=
      ⟨by rw [h0]; norm_num, by rw [h1]; norm_num, by rw [h2]; norm_num⟩
    have hm3 : ¬ matchesRow m (⟨"Unlabeled", 0, 0, 0⟩ : ClassRow) i j := by
      intro hm
      have hb := hm.2.1
      rw [h1] at hb
      norm_num at hb
    have hb0 : binarize (one_hot_encode m defaultClassMap) 128 i j ⟨0, by decide⟩ = 0 := by
      rw [hbin ⟨0, by decide⟩, defaultClassMap_get_zero, if_neg hm0]
    have hb1 : binarize (one_hot_encode m defaultClassMap) 128 i j ⟨1, by decide⟩ = 0 := by
      rw [hbin ⟨1, by decide⟩, defaultClassMap_get_one, if_neg hm1]
    have hb2 : binarize (one_hot_encode m defaultClassMap) 128 i j ⟨2, by decide⟩ = 255 := by
      rw [hbin ⟨2, by decide⟩, defaultClassMap_get_two, if_pos hm2]
    have hb3 : binarize (one_hot_encode m defaultClassMap) 128 i j ⟨3, by decide⟩ = 0 := by
      rw [hbin ⟨3, by decide⟩, defaultClassMap_get_three, if_neg hm3]
    rcases hp with rfl | rfl | rfl
    · rw [h0]
      simp only [reverse_one_hot_encode, finRange_defaultLength, List.map_cons, List.map_nil,
        defaultClassMap_get_zero, defaultClassMap_get_one, defaultClassMap_get_two,
        defaultClassMap_get_three, hb0, hb1, hb2, hb3]
      norm_num [npMax_four, max_def]
    · rw [h1]
      simp only [reverse_one_hot_encode, finRange_defaultLength, List.map_cons, List.map_nil,
        defaultClassMap_get_zero, defaultClassMap_get_one, defaultClassMap_get_two,
        defaultClassMap_get_three, hb0, hb1, hb2, hb3]
      norm_num [npMax_four, max_def]
    · rw [h2]
      simp only [reverse_one_hot_encode, finRange_defaultLength, List.map_cons, List.map_nil,
        defaultClassMap_get_zero, defaultClassMap_get_one, defaultClassMap_get_two,
        defaultClassMap_get_three, hb0, hb1, hb2, hb3]
      norm_num [npMax_four, max_def]
  · have hm0 : ¬ matchesRow m (⟨"Sky", 255, 0, 0⟩ : ClassRow) i j := by
      intro hm
      have ha := hm.1
      rw [h0] at ha
      norm_num at ha
    have hm1 : ¬ matchesRow m (⟨"Big Rocks", 0, 0, 255⟩ : ClassRow) i j := by
      intro hm
      have hc := hm.2.2
      rw [h2] at hc
      norm_num at hc
    have hm2 : ¬ matchesRow m (⟨"Small Rocks", 0, 255, 0⟩ : ClassRow) i j := by
      intro hm
      have hb := hm.2.1
      rw [h1] at hb
      norm_num at hb
    have hm3 : matchesRow m (⟨"Unlabeled", 0, 0, 0⟩ : ClassRow) i j :=
      ⟨by rw [h0]; norm_num, by rw [h1]; norm_num, by rw [h2]; norm_num⟩
    have hb0 : binarize (one_hot_encode m defaultClassMap) 128 i j ⟨0, by decide⟩ = 0 := by
      rw [hbin ⟨0, by decide⟩, defaultClassMap_get_zero, if_neg hm0]
    have hb1 : binarize (one_hot_encode m defaultClassMap) 128 i j ⟨1, by decide⟩ = 0 := by
      rw [hbin ⟨1, by decide⟩, defaultClassMap_get_one, if_neg hm1]
    have hb2 : binarize (one_hot_encode m defaultClassMap) 128 i j ⟨2, by decide⟩ = 0 := by
      rw [hbin ⟨2, by decide⟩, defaultClassMap_get_two, if_neg hm2]
    have hb3 : binarize (one_hot_encode m defaultClassMap) 128 i j ⟨3, by decide⟩ = 255 := by
      rw [hbin ⟨3, by decide⟩, defaultClassMap_get_three, if_pos hm3]
    rcases hp with rfl | rfl | rfl
    · rw [h0]
      simp only [reverse_one_hot_encode, finRange_defaultLength, List.map_cons, List.map_nil,
        defaultClassMap_get_zero, defaultClassMap_get_one, defaultClassMap_get_two,
        defaultClassMap_get_three, hb0, hb1, hb2, hb3]
      norm_num [npMax_four, max_def]
    · rw [h1]
      simp only [reverse_one_hot_encode, finRange_defaultLength, List.map_cons, List.map_nil,
        defaultClassMap_get_zero, defaultClassMap_get_one, defaultClassMap_get_two,
        defaultClassMap_get_three, hb0, hb1, hb2, hb3]
      norm_num [npMax_four, max_def]
    · rw [h2]
      simp only [reverse_one_hot_encode, finRange_defaultLength, List.map_cons, List.map_nil,
        defaultClassMap_get_zero, defaultClassMap_get_one, defaultClassMap_get_two,
        defaultClassMap_get_three, hb0, hb1, hb2, hb3]
      norm_num [npMax_four, max_def]

/-- Witness for C1: the 2x2 mask carrying all four canonical colors
round-trips to 255 times itself. -/
theorem round_trip_default_classmap_witness :
    reverse_one_hot_encode defaultClassMap (one_hot_encode exQuad defaultClassMap) 0 0 0
      = 255 * exQuad 0 0 0 :=
  round_trip_default_classmap exQuad (by decide) 0 0 0
